import Mathlib

/-!
Verification of vite-plugin-lit-hmr (src/src/index.ts) against its
natural-language specification.

The file embeds, as executable Lean definitions, the two engines of the
plugin: the runtime hot-swap engine (`__litHmrDefine`, the HMR acceptance
hook, the injected bootstrap) and the source rewriter (`isLitFile`,
`transform` of the `litHmr` plugin and `transform` of the `litHmrPost`
plugin, including faithful matchers for the text patterns the source uses).
Theorems about these definitions settle the frozen claims.
-/

set_option autoImplicit false

namespace LitHmr

/-! ## JavaScript value model

The runtime manipulates JavaScript values only through equality, `typeof`,
property descriptors and function identity, so a small first-order value
universe suffices.  Functions are identified by a tag (`fn k`); distinct
tags model distinct function objects. -/

inductive JSVal where
  | undefined
  | jsNull
  | num (n : Int)
  | str (s : String)
  | bool (b : Bool)
  | fn (k : Nat)
deriving DecidableEq

/-- The JavaScript `typeof` operator on our value universe
(`typeof null` is "object"). -/
def jsTypeof : JSVal → String
  | .undefined => "undefined"
  | .jsNull => "object"
  | .num _ => "number"
  | .str _ => "string"
  | .bool _ => "boolean"
  | .fn _ => "function"

/-- A property key: `Reflect.ownKeys` yields both string and symbol keys. -/
inductive PropKey where
  | strKey (s : String)
  | symKey (n : Nat)
deriving DecidableEq

/-- A property descriptor, as far as the update branch inspects one: its
value, whether it is an accessor (`desc.get`/`desc.set` present) and
whether it is configurable (which decides if `Object.defineProperty` can
replace it). -/
structure Descriptor where
  value : JSVal := .undefined
  hasGet : Bool := false
  hasSet : Bool := false
  configurable : Bool := true
deriving DecidableEq

abbrev Proto := List (PropKey × Descriptor)

/-- Own-property lookup on a prototype (`Object.getOwnPropertyDescriptor`). -/
def plookup : Proto → PropKey → Option Descriptor
  | [], _ => none
  | (k, d) :: rest, key => if k = key then some d else plookup rest key

/-- Replace the descriptor at an existing key (keeps its ownKeys position). -/
def pset : Proto → PropKey → Descriptor → Proto
  | [], key, d => [(key, d)]
  | (k, e) :: rest, key, d =>
    if k = key then (key, d) :: rest else (k, e) :: pset rest key d

/-- Model of `Object.defineProperty` on a prototype: redefining an existing
non-configurable property throws (modelled as `none`); otherwise the key is
replaced in place or appended at the end of the ownKeys order. -/
def defineProp (proto : Proto) (key : PropKey) (d : Descriptor) : Option Proto :=
  match plookup proto key with
  | some old => if old.configurable then some (pset proto key d) else none
  | none => some (proto ++ [(key, d)])

/-- The prototype-patch loop of `__litHmrDefine`'s update branch
(src/src/index.ts lines 113-127): iterate `Reflect.ownKeys(newProto)` (the
entries of the new prototype, in order), skip the `constructor` slot, skip
accessor descriptors, and copy every other descriptor onto the old (proxy)
prototype with `Object.defineProperty`; a throw from `defineProperty` is
caught and the failing key logged (`console.warn`), and the loop continues.
Returns the patched prototype and the list of logged keys. -/
def patchProto : Proto → List (PropKey × Descriptor) → List PropKey → Proto × List PropKey
  | old, [], logs => (old, logs)
  | old, (key, d) :: rest, logs =>
    if key = .strKey "constructor" then patchProto old rest logs
    else if d.hasGet || d.hasSet then patchProto old rest logs
    else
      match defineProp old key d with
      | some old2 => patchProto old2 rest logs
      | none => patchProto old rest (logs ++ [key])

/-! ## The runtime registry and `__litHmrDefine` -/

/-- A live element instance, as far as the engine touches one: its identity,
whether `typeof instance.requestUpdate === 'function'`, and whether calling
`requestUpdate()` on it throws. -/
structure Instance where
  instId : Nat
  hasRequestUpdate : Bool
  requestUpdateThrows : Bool
deriving DecidableEq

/-- A delegate class, as far as the engine inspects one: its prototype's own
descriptors (in `Reflect.ownKeys` order, assumed duplicate-free), its own
static class-level properties, and its declared `observedAttributes` list. -/
structure JSClass where
  protoProps : List (PropKey × Descriptor)
  statics : List (String × JSVal)
  observedAttributes : List String
deriving DecidableEq

/-- The registration record stored in `window.__LIT_HMR_REGISTRY__` for one
tag name, together with the mutable parts of the proxy class it references:
the proxy's own prototype, the proxy's own statics (none are ever created),
and the superclass the proxy was created from (`class HmrProxyElement
extends ElementClass` with the FIRST delegate), through which static lookups
on the proxy fall. -/
structure RegRecord where
  elementClass : JSClass
  tagName : String
  instances : List Instance
  proxyId : Nat
  proxyProto : Proto
  proxyStatics : List (String × JSVal)
  proxySuper : JSClass
deriving DecidableEq

/-- Lookup in a string-keyed association list (a JS `Map` / plain object). -/
def alookup {β : Type} : List (String × β) → String → Option β
  | [], _ => none
  | (k, v) :: rest, key => if k = key then some v else alookup rest key

/-- Insert or replace in a string-keyed association list (`Map.prototype.set`). -/
def aset {β : Type} : List (String × β) → String → β → List (String × β)
  | [], key, v => [(key, v)]
  | (k, w) :: rest, key, v =>
    if k = key then (key, v) :: rest else (k, w) :: aset rest key v

/-- The own prototype of a freshly constructed `HmrProxyElement` class: its
own `constructor` and its own `disconnectedCallback` override. -/
def initialProxyProto : Proto :=
  [(.strKey "constructor", { value := .fn 0 }),
   (.strKey "disconnectedCallback", { value := .fn 1 })]

/-- The process-wide state the runtime owns: `window.__LIT_HMR_REGISTRY__`,
the underlying platform registry's bindings (`customElements.define` calls,
in order: tag name and the identity of the class bound), a counter supplying
fresh proxy identities, and the two escalation flags
`window.__LIT_HMR_NEEDS_RELOAD__` / `window.__LIT_HMR_RELOAD_REASON__`. -/
structure HmrState where
  registry : List (String × RegRecord)
  ceBindings : List (String × Nat)
  nextProxyId : Nat
  needsReload : Bool
  reloadReason : String
deriving DecidableEq

def HmrState.init : HmrState :=
  { registry := [], ceBindings := [], nextProxyId := 0,
    needsReload := false, reloadReason := "" }

/-- Observable events of one `__litHmrDefine` call. -/
inductive REvent where
  | defined (tag : String) (proxyId : Nat)
  | requestUpdate (instId : Nat)
  | warnPatchFailed (key : PropKey)
deriving DecidableEq

/-- The `existing.instances.forEach` loop of the update branch (lines
129-134): `requestUpdate()` is called on every instance that has one, in
set-insertion order.  The call is NOT wrapped in `try`/`catch` in the
source, so a throwing instance aborts the loop: the thrown error is
returned and the remaining instances receive no call. -/
def propagate : List Instance → List REvent × Option String
  | [] => ([], none)
  | i :: rest =>
    if i.hasRequestUpdate then
      if i.requestUpdateThrows then
        ([.requestUpdate i.instId], some "requestUpdate threw")
      else
        let (es, err) := propagate rest
        (.requestUpdate i.instId :: es, err)
    else propagate rest

/-- `window.__litHmrDefine` (src/src/index.ts lines 70-140).

First call for a tag: create the record, create the proxy class extending
the given class, store it, and call `customElements.define` — the only
place the platform registry is ever written.

Later calls: log, patch the proxy prototype from the new class's prototype
(`patchProto`), call `requestUpdate` on every tracked instance, then update
the stored `elementClass`.  No compatibility check of any kind is
performed, the escalation flags are never written, and no static property
is copied.  The only error that can escape is one thrown by an instance's
`requestUpdate` (it propagates: the `elementClass` update after the loop is
then skipped, but the prototype patch already happened).

Returns the state after the call, the emitted events, and the escaped
error, if any. -/
def __litHmrDefine (tagName : String) (cls : JSClass) (s : HmrState) :
    HmrState × List REvent × Option String :=
  match alookup s.registry tagName with
  | none =>
    let rec0 : RegRecord :=
      { elementClass := cls, tagName := tagName, instances := [],
        proxyId := s.nextProxyId, proxyProto := initialProxyProto,
        proxyStatics := [], proxySuper := cls }
    ({ s with registry := aset s.registry tagName rec0,
              ceBindings := s.ceBindings ++ [(tagName, s.nextProxyId)],
              nextProxyId := s.nextProxyId + 1 },
     [.defined tagName s.nextProxyId], none)
  | some r =>
    let patched := patchProto r.proxyProto cls.protoProps []
    let prop := propagate r.instances
    let r2 : RegRecord :=
      { r with proxyProto := patched.1,
               elementClass := if prop.2.isNone then cls else r.elementClass }
    ({ s with registry := aset s.registry tagName r2 },
     patched.2.map REvent.warnPatchFailed ++ prop.1, prop.2)

/-- The `HmrProxyElement` constructor body (`record.instances.add(this)`):
constructing an element of a registered tag appends the instance to the
record's set. -/
def constructInstance (tagName : String) (i : Instance) (s : HmrState) : HmrState :=
  match alookup s.registry tagName with
  | none => s
  | some r =>
    let r2 := { r with instances := r.instances ++ [i] }
    { s with registry := aset s.registry tagName r2 }

/-- The proxy's `disconnectedCallback` (`record.instances.delete(this)`). -/
def disconnectInstance (tagName : String) (i : Instance) (s : HmrState) : HmrState :=
  match alookup s.registry tagName with
  | none => s
  | some r =>
    let r2 := { r with instances := r.instances.filter (fun j => j ≠ i) }
    { s with registry := aset s.registry tagName r2 }

/-- One interaction with the runtime registry. -/
inductive HmrOp where
  | defineOp (tag : String) (cls : JSClass)
  | constructOp (tag : String) (i : Instance)
  | disconnectOp (tag : String) (i : Instance)

def runOp (s : HmrState) : HmrOp → HmrState
  | .defineOp t c => (__litHmrDefine t c s).1
  | .constructOp t i => constructInstance t i s
  | .disconnectOp t i => disconnectInstance t i s

def runOps (s : HmrState) (ops : List HmrOp) : HmrState := ops.foldl runOp s

/-- How many times `customElements.define` has been called for a tag. -/
def bindCount (tag : String) (s : HmrState) : Nat :=
  (s.ceBindings.filter (fun p => p.1 = tag)).length

/-- The class currently bound to a tag in the platform registry (first bind
wins: the platform rejects re-binding, and the engine never attempts one). -/
def ceLookup (s : HmrState) (tag : String) : Option Nat := alookup s.ceBindings tag

/-- Whether an op is a `__litHmrDefine` call carrying the given tag. -/
def isDefineFor (tag : String) : HmrOp → Bool
  | .defineOp t _ => t = tag
  | _ => false

/-- The static property a lookup on the proxy class actually sees: the
proxy's own statics first, then (class-extends inheritance) the statics of
the superclass the proxy was created from — the FIRST delegate. -/
def effectiveStatic (r : RegRecord) (name : String) : Option JSVal :=
  match alookup r.proxyStatics name with
  | some v => some v
  | none => alookup r.proxySuper.statics name

/-! ## The HMR acceptance hook -/

/-- What the acceptance hook can be observed doing. -/
inductive HookEvent where
  | warn (reason : String)
  | accepted (moduleId : String)
  | invalidate (reason : String)
deriving DecidableEq

/-- The `import.meta.hot.accept` callback appended to every rewritten unit
(src/src/index.ts lines 311-329).  If `window.__LIT_HMR_NEEDS_RELOAD__` is
set it captures the reason, clears both flags and logs a warning; the
`import.meta.hot.invalidate(reason)` call is commented out in the source,
so no `invalidate` event is ever emitted.  Otherwise it only logs the
acceptance. -/
def hotAccept (moduleId : String) (s : HmrState) : HmrState × List HookEvent :=
  if s.needsReload then
    ({ s with needsReload := false, reloadReason := "" },
     [.warn s.reloadReason])
  else (s, [.accepted moduleId])

/-! ## Association-list lemmas -/

theorem alookup_aset_self {β : Type} (l : List (String × β)) (k : String) (v : β) :
    alookup (aset l k v) k = some v := by
  induction l with
  | nil => simp [aset, alookup]
  | cons p rest ih =>
    obtain ⟨a, b⟩ := p
    by_cases h : a = k
    · simp [aset, alookup, h]
    · simp [aset, alookup, h, ih]

theorem alookup_aset_ne {β : Type} (l : List (String × β)) (k k' : String) (v : β)
    (h : k' ≠ k) : alookup (aset l k v) k' = alookup l k' := by
  have hne : k ≠ k' := Ne.symm h
  induction l with
  | nil => simp [aset, alookup, hne]
  | cons p rest ih =>
    obtain ⟨a, b⟩ := p
    by_cases ha : a = k
    · subst ha
      simp [aset, alookup, hne]
    · by_cases hk : a = k'
      · simp [aset, alookup, ha, hk, h]
      · simp [aset, alookup, ha, hk, ih]

theorem alookup_append_none {β : Type} (l1 l2 : List (String × β)) (k : String)
    (h : alookup l1 k = none) : alookup (l1 ++ l2) k = alookup l2 k := by
  induction l1 with
  | nil => simp
  | cons p rest ih =>
    obtain ⟨a, b⟩ := p
    by_cases ha : a = k
    · simp [alookup, ha] at h
    · simp only [alookup, ha, if_false] at h
      simp only [List.cons_append, alookup, if_neg ha]
      exact ih h

theorem alookup_append_some {β : Type} (l1 l2 : List (String × β)) (k : String) {v : β}
    (h : alookup l1 k = some v) : alookup (l1 ++ l2) k = some v := by
  induction l1 with
  | nil => simp [alookup] at h
  | cons p rest ih =>
    obtain ⟨a, b⟩ := p
    by_cases ha : a = k
    · simp only [alookup, ha, if_true] at h
      simp [alookup, ha, h]
    · simp only [alookup, ha, if_false] at h
      simp only [List.cons_append, alookup, if_neg ha]
      exact ih h

/-! ## The single-bind invariant (C1) -/

/-- The bookkeeping invariant tying the platform registry to the HMR
registry: a tag is bound in `customElements` exactly when it has a
registration record, it is then bound exactly once, and the bound class is
the record's proxy class. -/
def BindInv (s : HmrState) : Prop :=
  ∀ tag, ceLookup s tag = (alookup s.registry tag).map (fun r => r.proxyId)
    ∧ bindCount tag s = (if (alookup s.registry tag).isSome then 1 else 0)

theorem bindInv_init : BindInv HmrState.init := by
  intro tag
  simp [HmrState.init, ceLookup, alookup, bindCount]

theorem bindCount_append (tag t : String) (i : Nat) (ce : List (String × Nat)) :
    ((ce ++ [(t, i)]).filter (fun p => p.1 = tag)).length
      = (ce.filter (fun p => p.1 = tag)).length + (if t = tag then 1 else 0) := by
  by_cases h : t = tag <;> simp [List.filter_append, h]

/-- Replacing an existing record by one with the same proxy identity
preserves the invariant. -/
theorem bindInv_aset_same (s : HmrState) (t : String) (r r2 : RegRecord)
    (hreg : alookup s.registry t = some r) (hid : r2.proxyId = r.proxyId)
    (h : BindInv s) :
    BindInv { s with registry := aset s.registry t r2 } := by
  intro tag
  have h1 := (h tag).1
  have h2 := (h tag).2
  by_cases htag : tag = t
  · subst htag
    rw [hreg] at h1 h2
    refine ⟨?_, ?_⟩
    · show ceLookup s tag = _
      rw [alookup_aset_self, h1]
      simp [hid]
    · show bindCount tag s = _
      rw [alookup_aset_self]
      simpa using h2
  · refine ⟨?_, ?_⟩
    · show ceLookup s tag = _
      rw [alookup_aset_ne _ _ _ _ htag]
      exact h1
    · show bindCount tag s = _
      rw [alookup_aset_ne _ _ _ _ htag]
      exact h2

theorem bindInv_step (s : HmrState) (op : HmrOp) (h : BindInv s) :
    BindInv (runOp s op) := by
  cases op with
  | defineOp t c =>
    simp only [runOp, __litHmrDefine]
    cases hreg : alookup s.registry t with
    | none =>
      intro tag
      by_cases htag : tag = t
      · subst htag
        have h1 := (h tag).1
        have h2 := (h tag).2
        rw [hreg] at h1 h2
        simp only [Option.map_none, Option.isSome_none, if_false] at h1 h2
        refine ⟨?_, ?_⟩
        · show alookup (s.ceBindings ++ [(tag, s.nextProxyId)]) tag = _
          rw [alookup_append_none _ _ _ h1]
          rw [alookup_aset_self]
          simp [alookup]
        · show ((s.ceBindings ++ [(tag, s.nextProxyId)]).filter
              (fun p => p.1 = tag)).length = _
          rw [bindCount_append]
          rw [alookup_aset_self]
          simp only [bindCount] at h2
          simp [h2]
      · have h1 := (h tag).1
        have h2 := (h tag).2
        simp only [ceLookup] at h1
        refine ⟨?_, ?_⟩
        · show alookup (s.ceBindings ++ [(t, s.nextProxyId)]) tag = _
          rw [alookup_aset_ne _ _ _ _ htag]
          cases hce : alookup s.ceBindings tag with
          | none =>
            rw [alookup_append_none _ _ _ hce]
            rw [hce] at h1
            simp only [alookup, if_neg (fun hh : t = tag => htag hh.symm)]
            exact h1
          | some v =>
            rw [alookup_append_some _ _ _ hce]
            rw [hce] at h1
            exact h1
        · show ((s.ceBindings ++ [(t, s.nextProxyId)]).filter
              (fun p => p.1 = tag)).length = _
          rw [bindCount_append]
          rw [alookup_aset_ne _ _ _ _ htag]
          simp only [if_neg (fun hh : t = tag => htag hh.symm), Nat.add_zero]
          exact h2
    | some r =>
      exact bindInv_aset_same s t r _ hreg rfl h
  | constructOp t i =>
    simp only [runOp, constructInstance]
    cases hreg : alookup s.registry t with
    | none => exact h
    | some r => exact bindInv_aset_same s t r _ hreg rfl h
  | disconnectOp t i =>
    simp only [runOp, disconnectInstance]
    cases hreg : alookup s.registry t with
    | none => exact h
    | some r => exact bindInv_aset_same s t r _ hreg rfl h

theorem bindInv_runOps (ops : List HmrOp) (s : HmrState) (h : BindInv s) :
    BindInv (runOps s ops) := by
  induction ops generalizing s with
  | nil => exact h
  | cons op rest ih => exact ih _ (bindInv_step s op h)

/-- Every op keeps a registered tag registered, with the same proxy identity. -/
theorem registered_step (s : HmrState) (op : HmrOp) (tag : String)
    (h : (alookup s.registry tag).isSome = true) :
    (alookup (runOp s op).registry tag).map (fun r => r.proxyId)
      = (alookup s.registry tag).map (fun r => r.proxyId) := by
  cases hreg : alookup s.registry tag with
  | none => rw [hreg] at h; simp at h
  | some r =>
    cases op with
    | defineOp t c =>
      simp only [runOp, __litHmrDefine]
      cases hreg2 : alookup s.registry t with
      | none =>
        by_cases htag : tag = t
        · subst htag; rw [hreg] at hreg2; cases hreg2
        · simp only
          rw [alookup_aset_ne _ _ _ _ htag, hreg]
      | some r2 =>
        by_cases htag : tag = t
        · subst htag
          rw [hreg] at hreg2
          cases hreg2
          simp only
          rw [alookup_aset_self]
          simp
        · simp only
          rw [alookup_aset_ne _ _ _ _ htag, hreg]
    | constructOp t i =>
      simp only [runOp, constructInstance]
      cases hreg2 : alookup s.registry t with
      | none =>
        show (alookup s.registry tag).map (fun r => r.proxyId) = _
        rw [hreg]
      | some r2 =>
        by_cases htag : tag = t
        · subst htag
          rw [hreg] at hreg2
          cases hreg2
          simp only
          rw [alookup_aset_self]
          simp
        · simp only
          rw [alookup_aset_ne _ _ _ _ htag, hreg]
    | disconnectOp t i =>
      simp only [runOp, disconnectInstance]
      cases hreg2 : alookup s.registry t with
      | none =>
        show (alookup s.registry tag).map (fun r => r.proxyId) = _
        rw [hreg]
      | some r2 =>
        by_cases htag : tag = t
        · subst htag
          rw [hreg] at hreg2
          cases hreg2
          simp only
          rw [alookup_aset_self]
          simp
        · simp only
          rw [alookup_aset_ne _ _ _ _ htag, hreg]

theorem map_proxy_isSome (o : Option RegRecord) :
    (o.map (fun r => r.proxyId)).isSome = o.isSome := by
  cases o <;> rfl

theorem registered_runOps (ops : List HmrOp) (s : HmrState) (tag : String)
    (h : (alookup s.registry tag).isSome = true) :
    (alookup (runOps s ops).registry tag).map (fun r => r.proxyId)
      = (alookup s.registry tag).map (fun r => r.proxyId) := by
  induction ops generalizing s with
  | nil => rfl
  | cons op rest ih =>
    have hstep := registered_step s op tag h
    have hsome2 : (alookup (runOp s op).registry tag).isSome = true := by
      rw [← map_proxy_isSome, hstep, map_proxy_isSome]
      exact h
    calc (alookup (runOps (runOp s op) rest).registry tag).map (fun r => r.proxyId)
        = (alookup (runOp s op).registry tag).map (fun r => r.proxyId) := ih _ hsome2
      _ = (alookup s.registry tag).map (fun r => r.proxyId) := hstep

/-- A define op for a tag leaves the tag registered. -/
theorem registered_after_define (s : HmrState) (tag : String) (c : JSClass) :
    (alookup (runOp s (.defineOp tag c)).registry tag).isSome = true := by
  simp only [runOp, __litHmrDefine]
  cases hreg : alookup s.registry tag with
  | none => simp [alookup_aset_self]
  | some r => simp [alookup_aset_self]

theorem registered_of_any (ops : List HmrOp) (s : HmrState) (tag : String)
    (h : ops.any (isDefineFor tag) = true) :
    (alookup (runOps s ops).registry tag).isSome = true := by
  induction ops generalizing s with
  | nil => simp at h
  | cons op rest ih =>
    simp only [List.any_cons, Bool.or_eq_true] at h
    cases h with
    | inl hop =>
      cases op with
      | defineOp t c =>
        simp only [isDefineFor, decide_eq_true_eq] at hop
        have h1 : (alookup (runOp s (.defineOp t c)).registry tag).isSome = true := by
          rw [hop]
          exact registered_after_define s tag c
        show (alookup (runOps (runOp s (.defineOp t c)) rest).registry tag).isSome = true
        rw [← map_proxy_isSome, registered_runOps rest _ tag h1, map_proxy_isSome]
        exact h1
      | constructOp t i => simp [isDefineFor] at hop
      | disconnectOp t i => simp [isDefineFor] at hop
    | inr hrest => exact ih _ hrest

/-- C1 — Single-bind invariant: across any sequence of interactions with the
runtime that contains at least one `__litHmrDefine` call for a tag, the
platform registry has received exactly one `customElements.define` call for
that tag; the class bound is the registered record's proxy class; and no
later interaction of any kind ever changes the binding. -/
theorem single_bind_invariant (ops : List HmrOp) (tag : String)
    (h : ops.any (isDefineFor tag) = true) :
    bindCount tag (runOps HmrState.init ops) = 1
    ∧ ceLookup (runOps HmrState.init ops) tag
        = (alookup (runOps HmrState.init ops).registry tag).map (fun r => r.proxyId)
    ∧ ∀ extra : List HmrOp,
        ceLookup (runOps HmrState.init (ops ++ extra)) tag
          = ceLookup (runOps HmrState.init ops) tag := by
  have hinv : BindInv (runOps HmrState.init ops) :=
    bindInv_runOps ops HmrState.init bindInv_init
  have hsome := registered_of_any ops HmrState.init tag h
  refine ⟨?_, (hinv tag).1, ?_⟩
  · rw [(hinv tag).2, if_pos hsome]
  · intro extra
    have hrun : runOps HmrState.init (ops ++ extra)
        = runOps (runOps HmrState.init ops) extra := by
      simp [runOps, List.foldl_append]
    rw [hrun]
    have hinv2 : BindInv (runOps (runOps HmrState.init ops) extra) :=
      bindInv_runOps extra _ hinv
    rw [(hinv2 tag).1, (hinv tag).1]
    rw [registered_runOps extra _ tag hsome]

/-- C1 witness: a concrete run — two registration calls for "x-el" — results
in exactly one platform bind. -/
theorem single_bind_invariant_witness :
    bindCount "x-el"
      (runOps HmrState.init
        [.defineOp "x-el" { protoProps := [], statics := [], observedAttributes := [] },
         .defineOp "x-el" { protoProps := [], statics := [], observedAttributes := [] }]) = 1 :=
  (single_bind_invariant
    [.defineOp "x-el" { protoProps := [], statics := [], observedAttributes := [] },
     .defineOp "x-el" { protoProps := [], statics := [], observedAttributes := [] }]
    "x-el" (by decide)).1

/-! ## Concrete delegate classes and instances used in scenarios -/

/-- First version of a delegate: a `render` method, a `styles` static,
one observed attribute. -/
def exV1 : JSClass :=
  { protoProps := [(.strKey "constructor", { value := .fn 10 }),
                   (.strKey "render", { value := .fn 11 })],
    statics := [("styles", .str "a")],
    observedAttributes := ["a"] }

/-- Second version: different `render`, different `styles`, one MORE
observed attribute — incompatible along the observed-attributes axis. -/
def exV2 : JSClass :=
  { protoProps := [(.strKey "constructor", { value := .fn 10 }),
                   (.strKey "render", { value := .fn 12 })],
    statics := [("styles", .str "b")],
    observedAttributes := ["a", "b"] }

/-- An instance whose `requestUpdate` throws. -/
def iThrow : Instance :=
  { instId := 1, hasRequestUpdate := true, requestUpdateThrows := true }

/-- A well-behaved instance. -/
def iOk : Instance :=
  { instId := 2, hasRequestUpdate := true, requestUpdateThrows := false }

/-- Another well-behaved instance. -/
def iOk3 : Instance :=
  { instId := 3, hasRequestUpdate := true, requestUpdateThrows := false }

/-- A window state with the escalation flags set to a captured reason. -/
def flaggedState (reason : String) : HmrState :=
  { HmrState.init with needsReload := true, reloadReason := reason }

/-! ## C2 — no compatibility check, the escalation flag is never set -/

theorem flags_preserved_step (s : HmrState) (op : HmrOp) :
    (runOp s op).needsReload = s.needsReload
    ∧ (runOp s op).reloadReason = s.reloadReason := by
  cases op with
  | defineOp t c =>
    simp only [runOp, __litHmrDefine]
    cases alookup s.registry t <;> simp
  | constructOp t i =>
    simp only [runOp, constructInstance]
    cases alookup s.registry t <;> simp
  | disconnectOp t i =>
    simp only [runOp, disconnectInstance]
    cases alookup s.registry t <;> simp

theorem flags_never_set (ops : List HmrOp) :
    (runOps HmrState.init ops).needsReload = false
    ∧ (runOps HmrState.init ops).reloadReason = "" := by
  suffices h : ∀ s, (runOps s ops).needsReload = s.needsReload
      ∧ (runOps s ops).reloadReason = s.reloadReason by
    exact ⟨(h HmrState.init).1, (h HmrState.init).2⟩
  intro s
  induction ops generalizing s with
  | nil => exact ⟨rfl, rfl⟩
  | cons op rest ih =>
    have h1 := flags_preserved_step s op
    have h2 := ih (runOp s op)
    exact ⟨h2.1.trans h1.1, h2.2.trans h1.2⟩

/-- C2 — the code at the claim's scenario.  `__litHmrDefine` performs no
compatibility check at all: the escalation flags are never written by any
sequence of runtime interactions, and at the concrete failing input — a
second registration of "x-obs" whose delegate adds an observed attribute —
the update is patched anyway (the new `render` descriptor lands on the
proxy prototype) instead of escalating and leaving the proxy untouched. -/
theorem incompatible_update_is_patched :
    (∀ ops : List HmrOp,
      (runOps HmrState.init ops).needsReload = false
      ∧ (runOps HmrState.init ops).reloadReason = "")
    ∧ exV1.observedAttributes ≠ exV2.observedAttributes
    ∧ (runOps HmrState.init
        [.defineOp "x-obs" exV1, .defineOp "x-obs" exV2]).needsReload = false
    ∧ ((alookup (runOps HmrState.init
        [.defineOp "x-obs" exV1, .defineOp "x-obs" exV2]).registry "x-obs").map
          (fun r => plookup r.proxyProto (.strKey "render")))
        = some (some { value := .fn 12 }) := by
  refine ⟨flags_never_set, by decide, ?_, by decide⟩
  exact (flags_never_set _).1

/-! ## C3 — the acceptance hook clears the flags but requests no reload -/

/-- C3 counterexample: with the escalation flag set and a captured reason,
the acceptance hook emits no reload request at all (the
`import.meta.hot.invalidate` call is commented out in the source): it only
warns.  This refutes the claim that the hook requests a full reload. -/
theorem hook_requests_no_reload :
    ((hotAccept "/src/a.ts" (flaggedState "Observed attributes changed")).2.any
      (fun e => match e with | .invalidate _ => true | _ => false)) = false
    ∧ (hotAccept "/src/a.ts" (flaggedState "Observed attributes changed")).2
      = [.warn "Observed attributes changed"] := by
  exact ⟨rfl, rfl⟩

/-- C3 (amended) — when the escalation flag is set the hook clears both
flags (boolean to false, reason to empty) and logs a warning carrying the
captured reason, but requests no reload (no invalidate event); when the
flag is not set it changes nothing and only logs the acceptance. -/
theorem hotAccept_spec (moduleId : String) (s : HmrState) :
    (s.needsReload = true →
      (hotAccept moduleId s).1.needsReload = false
      ∧ (hotAccept moduleId s).1.reloadReason = ""
      ∧ (hotAccept moduleId s).2 = [.warn s.reloadReason]
      ∧ ∀ reason : String, HookEvent.invalidate reason ∉ (hotAccept moduleId s).2)
    ∧ (s.needsReload = false →
      (hotAccept moduleId s).1 = s
      ∧ (hotAccept moduleId s).2 = [.accepted moduleId]) := by
  constructor
  · intro h
    simp [hotAccept, h]
  · intro h
    simp [hotAccept, h]

/-- C3 witness: the amended hook behavior at a concrete flagged state. -/
theorem hotAccept_spec_witness :
    (hotAccept "/src/m.ts" (flaggedState "r")).1.needsReload = false
    ∧ (hotAccept "/src/m.ts" (flaggedState "r")).2 = [.warn "r"] := by
  have h := (hotAccept_spec "/src/m.ts" (flaggedState "r")).1 rfl
  exact ⟨h.1, h.2.2.1⟩

/-! ## C5 — statics and framework caches are not copied on update -/

/-- All proxy classes have no own statics, ever: nothing in the code writes
a static onto the proxy. -/
def StaticsInv (s : HmrState) : Prop :=
  ∀ tag r, alookup s.registry tag = some r → r.proxyStatics = []

theorem alookup_aset_cases {β : Type} (l : List (String × β)) (t tag : String)
    (v r : β) (h : alookup (aset l t v) tag = some r) :
    (tag = t ∧ r = v) ∨ alookup l tag = some r := by
  by_cases htag : tag = t
  · subst htag
    rw [alookup_aset_self] at h
    exact Or.inl ⟨rfl, (Option.some_inj.mp h).symm⟩
  · rw [alookup_aset_ne _ _ _ _ htag] at h
    exact Or.inr h

theorem staticsInv_step (s : HmrState) (op : HmrOp) (h : StaticsInv s) :
    StaticsInv (runOp s op) := by
  cases op with
  | defineOp t c =>
    simp only [runOp, __litHmrDefine]
    cases hreg : alookup s.registry t with
    | none =>
      intro tag r hr
      rcases alookup_aset_cases _ _ _ _ _ hr with ⟨-, rfl⟩ | hold
      · rfl
      · exact h tag r hold
    | some r0 =>
      intro tag r hr
      rcases alookup_aset_cases _ _ _ _ _ hr with ⟨-, rfl⟩ | hold
      · exact h t r0 hreg
      · exact h tag r hold
  | constructOp t i =>
    simp only [runOp, constructInstance]
    cases hreg : alookup s.registry t with
    | none => exact h
    | some r0 =>
      intro tag r hr
      rcases alookup_aset_cases _ _ _ _ _ hr with ⟨-, rfl⟩ | hold
      · exact h t r0 hreg
      · exact h tag r hold
  | disconnectOp t i =>
    simp only [runOp, disconnectInstance]
    cases hreg : alookup s.registry t with
    | none => exact h
    | some r0 =>
      intro tag r hr
      rcases alookup_aset_cases _ _ _ _ _ hr with ⟨-, rfl⟩ | hold
      · exact h t r0 hreg
      · exact h tag r hold

theorem staticsInv_runOps (ops : List HmrOp) (s : HmrState) (h : StaticsInv s) :
    StaticsInv (runOps s ops) := by
  induction ops generalizing s with
  | nil => exact h
  | cons op rest ih => exact ih _ (staticsInv_step s op h)

/-- C5 — the code at the claim's scenario.  No static property and no
framework cache is ever copied onto the proxy (proxy classes never acquire
own statics), so after the update of "x-stat" from `exV1` (styles "a") to
`exV2` (styles "b") the proxy still resolves `styles` to the FIRST
delegate's value "a" through class inheritance — the new delegate's "b" is
not visible, and no finalization marker is cleared (none is even modelled
as written, because the code has no such step). -/
theorem statics_not_copied :
    (∀ ops : List HmrOp, StaticsInv (runOps HmrState.init ops))
    ∧ ((alookup (runOps HmrState.init
        [.defineOp "x-stat" exV1, .defineOp "x-stat" exV2]).registry "x-stat").map
          (fun r => effectiveStatic r "styles")) = some (some (.str "a"))
    ∧ alookup exV2.statics "styles" = some (.str "b") := by
  refine ⟨?_, by decide, by decide⟩
  intro ops
  exact staticsInv_runOps ops HmrState.init (fun tag r hr => by simp [HmrState.init, alookup] at hr)

/-! ## C6 — a throwing instance aborts propagation -/

/-- C6 counterexample: with two live instances, the first of which throws
from `requestUpdate`, the second instance receives NO re-render request
during the update of "x-p" — the error is not caught and aborts the
forEach, refuting the claim that every remaining instance is still
served. -/
theorem propagation_error_aborts :
    (REvent.requestUpdate 2 ∉ (__litHmrDefine "x-p" exV2 (runOps HmrState.init
        [.defineOp "x-p" exV1, .constructOp "x-p" iThrow,
         .constructOp "x-p" iOk])).2.1)
    ∧ (__litHmrDefine "x-p" exV2 (runOps HmrState.init
        [.defineOp "x-p" exV1, .constructOp "x-p" iThrow,
         .constructOp "x-p" iOk])).2.2 = some "requestUpdate threw" := by
  exact ⟨by decide, by decide⟩

/-- C6 (amended) — propagation calls `requestUpdate` on the instances in
order; instances without a `requestUpdate` function are skipped.  If no
instance throws, every instance with the function is served and no error
escapes.  If an instance throws, the error is NOT caught: the loop aborts,
instances after the throwing one receive nothing, and the error escapes
the call. -/
theorem propagate_spec (pre post : List Instance) (bad : Instance) :
    ((∀ i ∈ pre, i.hasRequestUpdate = true → i.requestUpdateThrows = false) →
      propagate pre
        = ((pre.filter (fun i => i.hasRequestUpdate)).map
            (fun i => REvent.requestUpdate i.instId), none))
    ∧ ((∀ i ∈ pre, i.hasRequestUpdate = true → i.requestUpdateThrows = false) →
      bad.hasRequestUpdate = true → bad.requestUpdateThrows = true →
      propagate (pre ++ bad :: post)
        = ((pre.filter (fun i => i.hasRequestUpdate)).map
            (fun i => REvent.requestUpdate i.instId)
            ++ [.requestUpdate bad.instId],
           some "requestUpdate threw")) := by
  constructor
  · intro hpre
    induction pre with
    | nil => rfl
    | cons i rest ih =>
      have hi := hpre i (List.mem_cons_self i rest)
      have hrest : ∀ j ∈ rest, j.hasRequestUpdate = true → j.requestUpdateThrows = false :=
        fun j hj => hpre j (List.mem_cons_of_mem i hj)
      cases hru : i.hasRequestUpdate with
      | false => simp [propagate, hru, ih hrest]
      | true =>
        have hth := hi hru
        simp [propagate, hru, hth, ih hrest]
  · intro hpre hbru hbth
    induction pre with
    | nil => simp [propagate, hbru, hbth]
    | cons i rest ih =>
      have hi := hpre i (List.mem_cons_self i rest)
      have hrest : ∀ j ∈ rest, j.hasRequestUpdate = true → j.requestUpdateThrows = false :=
        fun j hj => hpre j (List.mem_cons_of_mem i hj)
      cases hru : i.hasRequestUpdate with
      | false => simp [propagate, hru, ih hrest]
      | true =>
        have hth := hi hru
        simp [propagate, hru, hth, ih hrest]

/-- C6 witness: the amended propagation behavior at a concrete input. -/
theorem propagate_spec_witness :
    propagate [iOk, iThrow, iOk3]
      = ([.requestUpdate 2, .requestUpdate 1], some "requestUpdate threw") :=
  (propagate_spec [iOk] [iOk3] iThrow).2 (by decide) (by decide) (by decide)

/-! ## C4 — prototype patch semantics -/

theorem plookup_pset_self (p : Proto) (k : PropKey) (d : Descriptor) :
    plookup (pset p k d) k = some d := by
  induction p with
  | nil => simp [pset, plookup]
  | cons e rest ih =>
    obtain ⟨a, b⟩ := e
    by_cases h : a = k
    · simp [pset, plookup, h]
    · simp [pset, plookup, h, ih]

theorem plookup_pset_ne (p : Proto) (k k' : PropKey) (d : Descriptor) (h : k' ≠ k) :
    plookup (pset p k d) k' = plookup p k' := by
  have hne : k ≠ k' := Ne.symm h
  induction p with
  | nil => simp [pset, plookup, hne]
  | cons e rest ih =>
    obtain ⟨a, b⟩ := e
    by_cases ha : a = k
    · subst ha
      simp [pset, plookup, hne]
    · by_cases hk : a = k'
      · simp [pset, plookup, ha, hk, h]
      · simp [pset, plookup, ha, hk, ih]

theorem plookup_append_self (p : Proto) (k : PropKey) (d : Descriptor)
    (h : plookup p k = none) : plookup (p ++ [(k, d)]) k = some d := by
  induction p with
  | nil => simp [plookup]
  | cons e rest ih =>
    obtain ⟨a, b⟩ := e
    by_cases ha : a = k
    · simp [plookup, ha] at h
    · simp only [plookup, ha, if_false] at h
      simp only [List.cons_append, plookup, if_neg ha]
      exact ih h

theorem plookup_append_ne (p : Proto) (k k' : PropKey) (d : Descriptor) (h : k' ≠ k) :
    plookup (p ++ [(k, d)]) k' = plookup p k' := by
  have hne : k ≠ k' := Ne.symm h
  induction p with
  | nil => simp [plookup, hne]
  | cons e rest ih =>
    obtain ⟨a, b⟩ := e
    by_cases ha : a = k'
    · simp [plookup, ha]
    · simp only [List.cons_append, plookup, if_neg ha]
      exact ih

/-- Whether `Object.defineProperty` may replace the key: the existing
descriptor, if any, must be configurable. -/
def configurableAt (p : Proto) (k : PropKey) : Bool :=
  ((plookup p k).map (fun d => d.configurable)).getD true

theorem defineProp_lookup_self {old : Proto} {k : PropKey} {d : Descriptor}
    {old2 : Proto} (h : defineProp old k d = some old2) :
    plookup old2 k = some d := by
  unfold defineProp at h
  cases hl : plookup old k with
  | some o =>
    rw [hl] at h
    by_cases hc : o.configurable = true
    · simp only [hc, if_true] at h
      cases h
      exact plookup_pset_self old k d
    · simp [hc] at h
  | none =>
    rw [hl] at h
    simp only [Option.some_inj] at h
    subst h
    exact plookup_append_self old k d hl

theorem defineProp_lookup_ne {old : Proto} {k : PropKey} {d : Descriptor}
    {old2 : Proto} (h : defineProp old k d = some old2)
    (k' : PropKey) (hk : k' ≠ k) : plookup old2 k' = plookup old k' := by
  unfold defineProp at h
  cases hl : plookup old k with
  | some o =>
    rw [hl] at h
    by_cases hc : o.configurable = true
    · simp only [hc, if_true, Option.some_inj] at h
      subst h
      exact plookup_pset_ne old k k' d hk
    · simp [hc] at h
  | none =>
    rw [hl] at h
    simp only [Option.some_inj] at h
    subst h
    exact plookup_append_ne old k k' d hk

theorem defineProp_some_of_configurable {old : Proto} {k : PropKey}
    (d : Descriptor) (h : configurableAt old k = true) :
    ∃ old2, defineProp old k d = some old2 := by
  unfold configurableAt at h
  unfold defineProp
  cases hl : plookup old k with
  | some o =>
    rw [hl] at h
    simp at h
    exact ⟨pset old k d, by simp [h]⟩
  | none => exact ⟨_, rfl⟩

theorem defineProp_none_of_not_configurable {old : Proto} {k : PropKey}
    (d : Descriptor) (h : configurableAt old k = false) :
    defineProp old k d = none := by
  unfold configurableAt at h
  unfold defineProp
  cases hl : plookup old k with
  | some o =>
    rw [hl] at h
    simp at h
    simp [h]
  | none => rw [hl] at h; simp at h

theorem configurableAt_congr {p1 p2 : Proto} {k : PropKey}
    (h : plookup p1 k = plookup p2 k) : configurableAt p1 k = configurableAt p2 k := by
  unfold configurableAt
  rw [h]

/-- Keys not named by the remaining entries are untouched by the patch loop. -/
theorem patchProto_lookup_not_mem (new : List (PropKey × Descriptor)) :
    ∀ (old : Proto) (logs : List PropKey) (k : PropKey),
      k ∉ new.map Prod.fst →
      plookup (patchProto old new logs).1 k = plookup old k := by
  induction new with
  | nil => intro old logs k h; rfl
  | cons e rest ih =>
    intro old logs k h
    obtain ⟨k0, d0⟩ := e
    simp only [List.map_cons, List.mem_cons, not_or] at h
    obtain ⟨hk0, hrest⟩ := h
    by_cases hc : k0 = PropKey.strKey "constructor"
    · simp only [patchProto, if_pos hc]
      exact ih old logs k hrest
    · simp only [patchProto, if_neg hc]
      by_cases hacc : (d0.hasGet || d0.hasSet) = true
      · rw [if_pos hacc]
        exact ih old logs k hrest
      · rw [if_neg hacc]
        cases hdp : defineProp old k0 d0 with
        | some old2 =>
          have h1 := ih old2 logs k hrest
          have h2 := defineProp_lookup_ne hdp k hk0
          exact h1.trans h2
        | none => exact ih old (logs ++ [k0]) k hrest

/-- Already-logged keys stay logged. -/
theorem patchProto_logs_mono (new : List (PropKey × Descriptor)) :
    ∀ (old : Proto) (logs : List PropKey) (k : PropKey),
      k ∈ logs → k ∈ (patchProto old new logs).2 := by
  induction new with
  | nil => intro old logs k h; exact h
  | cons e rest ih =>
    intro old logs k h
    obtain ⟨k0, d0⟩ := e
    by_cases hc : k0 = PropKey.strKey "constructor"
    · simp only [patchProto, if_pos hc]
      exact ih old logs k h
    · simp only [patchProto, if_neg hc]
      by_cases hacc : (d0.hasGet || d0.hasSet) = true
      · rw [if_pos hacc]
        exact ih old logs k h
      · rw [if_neg hacc]
        cases hdp : defineProp old k0 d0 with
        | some old2 => exact ih old2 logs k h
        | none =>
          exact ih old (logs ++ [k0]) k (List.mem_append_left _ h)

/-- The `constructor` slot of the proxy prototype is never overwritten. -/
theorem patchProto_constructor (new : List (PropKey × Descriptor)) :
    ∀ (old : Proto) (logs : List PropKey),
      plookup (patchProto old new logs).1 (.strKey "constructor")
        = plookup old (.strKey "constructor") := by
  induction new with
  | nil => intro old logs; rfl
  | cons e rest ih =>
    intro old logs
    obtain ⟨k0, d0⟩ := e
    by_cases hc : k0 = PropKey.strKey "constructor"
    · simp only [patchProto, if_pos hc]
      exact ih old logs
    · simp only [patchProto, if_neg hc]
      by_cases hacc : (d0.hasGet || d0.hasSet) = true
      · rw [if_pos hacc]
        exact ih old logs
      · rw [if_neg hacc]
        cases hdp : defineProp old k0 d0 with
        | some old2 =>
          have h1 := ih old2 logs
          have h2 := defineProp_lookup_ne hdp (PropKey.strKey "constructor")
            (fun hh => hc hh.symm)
          exact h1.trans h2
        | none => exact ih old (logs ++ [k0])

/-- Per-key behavior of the patch loop, for any key named by the new
prototype (keys assumed duplicate-free, as `Reflect.ownKeys` yields them). -/
theorem patchProto_key_spec (new : List (PropKey × Descriptor)) :
    ∀ (old : Proto) (logs : List PropKey),
      (new.map Prod.fst).Nodup →
      ∀ (k : PropKey) (d : Descriptor), (k, d) ∈ new →
      (k ≠ .strKey "constructor" → d.hasGet = false → d.hasSet = false →
        (configurableAt old k = true →
          plookup (patchProto old new logs).1 k = some d)
        ∧ (configurableAt old k = false →
          plookup (patchProto old new logs).1 k = plookup old k
          ∧ k ∈ (patchProto old new logs).2))
      ∧ ((d.hasGet || d.hasSet) = true →
        plookup (patchProto old new logs).1 k = plookup old k) := by
  induction new with
  | nil => intro old logs hnd k d hmem; cases hmem
  | cons e rest ih =>
    intro old logs hnd k d hmem
    obtain ⟨k0, d0⟩ := e
    simp only [List.map_cons, List.nodup_cons] at hnd
    obtain ⟨hk0notin, hndrest⟩ := hnd
    rcases List.mem_cons.mp hmem with heq | hmemrest
    · -- the entry under scrutiny is the head
      have hk : k = k0 := congrArg Prod.fst heq
      have hd : d = d0 := congrArg Prod.snd heq
      subst hk
      subst hd
      constructor
      · intro hkc hg hs
        have hacc : ¬((d.hasGet || d.hasSet) = true) := by simp [hg, hs]
        constructor
        · intro hconf
          obtain ⟨old2, hdp⟩ := defineProp_some_of_configurable d hconf
          simp only [patchProto, if_neg hkc, if_neg hacc, hdp]
          rw [patchProto_lookup_not_mem rest old2 logs k hk0notin]
          exact defineProp_lookup_self hdp
        · intro hconf
          have hdp := defineProp_none_of_not_configurable d hconf
          simp only [patchProto, if_neg hkc, if_neg hacc, hdp]
          refine ⟨patchProto_lookup_not_mem rest old _ k hk0notin, ?_⟩
          exact patchProto_logs_mono rest old (logs ++ [k]) k
            (List.mem_append_right _ (List.mem_singleton.mpr rfl))
      · intro hacc
        by_cases hkc : k = PropKey.strKey "constructor"
        · simp only [patchProto, if_pos hkc]
          exact patchProto_lookup_not_mem rest old logs k hk0notin
        · simp only [patchProto, if_neg hkc, if_pos hacc]
          exact patchProto_lookup_not_mem rest old logs k hk0notin
    · -- the entry under scrutiny is further down; the head has another key
      have hkmem : k ∈ rest.map Prod.fst := by
        exact List.mem_map.mpr ⟨(k, d), hmemrest, rfl⟩
      have hkne : k ≠ k0 := fun hh => hk0notin (hh ▸ hkmem)
      -- reduce the head entry, in each of its four branches
      by_cases hc : k0 = PropKey.strKey "constructor"
      · simp only [patchProto, if_pos hc]
        exact ih old logs hndrest k d hmemrest
      · simp only [patchProto, if_neg hc]
        by_cases hacc0 : (d0.hasGet || d0.hasSet) = true
        · rw [if_pos hacc0]
          exact ih old logs hndrest k d hmemrest
        · rw [if_neg hacc0]
          cases hdp : defineProp old k0 d0 with
          | some old2 =>
            have heq2 : plookup old2 k = plookup old k :=
              defineProp_lookup_ne hdp k hkne
            have hca : configurableAt old2 k = configurableAt old k :=
              configurableAt_congr heq2
            have ihc := ih old2 logs hndrest k d hmemrest
            constructor
            · intro hkc hg hs
              constructor
              · intro hconf
                exact (ihc.1 hkc hg hs).1 (by rw [hca]; exact hconf)
              · intro hconf
                have hres := (ihc.1 hkc hg hs).2 (by rw [hca]; exact hconf)
                exact ⟨hres.1.trans heq2, hres.2⟩
            · intro hacc
              exact ((ihc.2 hacc).trans heq2)
          | none => exact ih old (logs ++ [k0]) hndrest k d hmemrest

/-- C4 — Prototype patch semantics of the update branch: every own key of
the new prototype except the `constructor` slot has its descriptor copied
onto the proxy prototype, except accessor descriptors, which are skipped
(the proxy keeps its previous descriptor); the `constructor` slot is never
overwritten; and a `defineProperty` failure on one key (a non-configurable
existing descriptor) is caught and logged while every other key is still
copied. -/
theorem prototype_patch_semantics (old : Proto) (new : List (PropKey × Descriptor))
    (hnd : (new.map Prod.fst).Nodup) :
    (∀ (k : PropKey) (d : Descriptor), (k, d) ∈ new →
      k ≠ .strKey "constructor" → d.hasGet = false → d.hasSet = false →
      configurableAt old k = true →
      plookup (patchProto old new []).1 k = some d)
    ∧ (∀ (k : PropKey) (d : Descriptor), (k, d) ∈ new →
      (d.hasGet || d.hasSet) = true →
      plookup (patchProto old new []).1 k = plookup old k)
    ∧ plookup (patchProto old new []).1 (.strKey "constructor")
        = plookup old (.strKey "constructor")
    ∧ (∀ (k : PropKey) (d : Descriptor), (k, d) ∈ new →
      k ≠ .strKey "constructor" → d.hasGet = false → d.hasSet = false →
      configurableAt old k = false →
      plookup (patchProto old new []).1 k = plookup old k
      ∧ k ∈ (patchProto old new []).2) := by
  refine ⟨?_, ?_, patchProto_constructor new old [], ?_⟩
  · intro k d hmem hkc hg hs hconf
    exact ((patchProto_key_spec new old [] hnd k d hmem).1 hkc hg hs).1 hconf
  · intro k d hmem hacc
    exact (patchProto_key_spec new old [] hnd k d hmem).2 hacc
  · intro k d hmem hkc hg hs hconf
    exact ((patchProto_key_spec new old [] hnd k d hmem).1 hkc hg hs).2 hconf

/-- A proxy prototype with a non-configurable key, for the C4 witness. -/
def exOldProto : Proto :=
  initialProxyProto
    ++ [(.strKey "frozen", { value := .num 1, configurable := false }),
        (.strKey "acc0", { hasGet := true })]

/-- A new prototype exercising all four C4 branches: a constructor slot, a
plain method, a symbol-keyed method, an accessor and a key that collides
with a non-configurable one. -/
def exNewProto : List (PropKey × Descriptor) :=
  [(.strKey "constructor", { value := .fn 9 }),
   (.strKey "render", { value := .fn 12 }),
   (.symKey 0, { value := .fn 13 }),
   (.strKey "acc0", { value := .fn 14, hasGet := true }),
   (.strKey "frozen", { value := .num 2 })]

/-- C4 witness: the patch at a concrete prototype pair — the plain and
symbol-keyed methods land, the accessor keeps the old descriptor, and the
non-configurable key fails, is logged, and does not block the others. -/
theorem prototype_patch_semantics_witness :
    plookup (patchProto exOldProto exNewProto []).1 (.strKey "render")
        = some { value := .fn 12 }
    ∧ plookup (patchProto exOldProto exNewProto []).1 (.symKey 0)
        = some { value := .fn 13 }
    ∧ plookup (patchProto exOldProto exNewProto []).1 (.strKey "acc0")
        = plookup exOldProto (.strKey "acc0")
    ∧ (plookup (patchProto exOldProto exNewProto []).1 (.strKey "frozen")
        = plookup exOldProto (.strKey "frozen")
      ∧ PropKey.strKey "frozen" ∈ (patchProto exOldProto exNewProto []).2) := by
  have h := prototype_patch_semantics exOldProto exNewProto (by decide)
  refine ⟨?_, ?_, ?_, ?_⟩
  · exact h.1 (.strKey "render") { value := .fn 12 } (by decide) (by decide)
      (by decide) (by decide) (by decide)
  · exact h.1 (.symKey 0) { value := .fn 13 } (by decide) (by decide)
      (by decide) (by decide) (by decide)
  · exact h.2.1 (.strKey "acc0") { value := .fn 14, hasGet := true } (by decide)
      (by decide)
  · exact h.2.2.2 (.strKey "frozen") { value := .num 2 } (by decide) (by decide)
      (by decide) (by decide) (by decide)

/-! ## The source rewriter: text-pattern matchers

The plugin's Pattern Matcher is a handful of JavaScript regexes; each is
embedded here as an executable matcher over `List Char`.  A matcher reads a
pattern at the head of the input and returns its captures and the
remainder; `scanAll` replays a global-regex `exec` loop over a whole unit;
`searchFrom` is `RegExp.test`/`String.match` search from an index. -/

/-- JavaScript `\s` (the ASCII part; the texts involved are ASCII). -/
def isJsWs (c : Char) : Bool :=
  c = ' ' || c = '\t' || c = '\n' || c = '\r' || c = '\x0b' || c = '\x0c'

/-- `\s*` — greedy whitespace. -/
def dropWs (l : List Char) : List Char := l.dropWhile isJsWs

/-- `\s+` — at least one whitespace character, then greedy. -/
def ws1 (l : List Char) : Option (List Char) :=
  match l with
  | [] => none
  | c :: cs => if isJsWs c then some (dropWs cs) else none

/-- A literal piece of a pattern. -/
def expectStr : List Char → List Char → Option (List Char)
  | [], l => some l
  | _ :: _, [] => none
  | c :: cs, x :: xs => if x = c then expectStr cs xs else none

def isQuoteChar (c : Char) : Bool := c = '\'' || c = '"' || c = '`'

def isIdentStart (c : Char) : Bool := c.isAlpha || c = '_' || c = '$'

/-- `[\w$]` (`\w` = ASCII letters, digits, underscore). -/
def isIdentChar (c : Char) : Bool := c.isAlphanum || c = '_' || c = '$'

/-- `([a-zA-Z_$][\w$]*)` — an identifier capture. -/
def parseIdent (l : List Char) : Option (String × List Char) :=
  match l with
  | [] => none
  | c :: cs =>
    if isIdentStart c then
      some (String.mk (c :: cs.takeWhile isIdentChar), cs.dropWhile isIdentChar)
    else none

/-- `(['"`])([^'"`]+)\1` — a quoted name: any of the three quote characters,
a nonempty body free of all three, and the same quote again (the
backreference). -/
def parseQuoted (l : List Char) : Option (String × List Char) :=
  match l with
  | [] => none
  | q :: cs =>
    if isQuoteChar q then
      let body := cs.takeWhile (fun c => !isQuoteChar c)
      match cs.dropWhile (fun c => !isQuoteChar c) with
      | c :: rest2 =>
        if body.isEmpty then none
        else if c = q then some (String.mk body, rest2) else none
      | [] => none
    else none

/-- DEFINE_RE (src/src/index.ts line 37):
`customElements\.define\(\s*(['"`])([^'"`]+)\1\s*,\s*([a-zA-Z_$][\w$]*)\s*\)`,
matched at the head of the input; returns (tag, class identifier). -/
def matchDefineAt (l : List Char) : Option ((String × String) × List Char) := do
  let r0 ← expectStr "customElements.define(".toList l
  let (tag, r1) ← parseQuoted (dropWs r0)
  let r2 ← expectStr ",".toList (dropWs r1)
  let (cn, r3) ← parseIdent (dropWs r2)
  let r4 ← expectStr ")".toList (dropWs r3)
  pure ((tag, cn), r4)

/-- DECORATOR_RE (line 41): `@customElement\(\s*(['"`])([^'"`]+)\1\s*\)`. -/
def matchDecoratorAt (l : List Char) : Option (String × List Char) := do
  let r0 ← expectStr "@customElement(".toList l
  let (tag, r1) ← parseQuoted (dropWs r0)
  let r2 ← expectStr ")".toList (dropWs r1)
  pure (tag, r2)

/-- `export\s+class\s+([a-zA-Z_$][\w$]*)` (line 226). -/
def matchExportClassAt (l : List Char) : Option (String × List Char) := do
  let r0 ← expectStr "export".toList l
  let r1 ← ws1 r0
  let r2 ← expectStr "class".toList r1
  let r3 ← ws1 r2
  let (cn, r4) ← parseIdent r3
  pure (cn, r4)

/-- All matches of a head-matcher over the input, scanning left to right and
resuming right after each match — the behavior of a `/g` regex `exec` loop
(each successful `exec` sets `lastIndex` to the match end; the final failed
`exec` resets `lastIndex` to 0, so the loop leaves the regex at 0).
Returns (start, length, captures) triples. -/
def scanAllFuel {α : Type} (m : List Char → Option (α × List Char)) :
    Nat → List Char → Nat → List (Nat × Nat × α)
  | 0, _, _ => []
  | _ + 1, [], _ => []
  | fuel + 1, c :: rest, pos =>
    match m (c :: rest) with
    | some (a, rem) =>
      let len := (c :: rest).length - rem.length
      (pos, len, a) :: scanAllFuel m fuel (List.drop (len - 1) rest) (pos + len)
    | none => scanAllFuel m fuel rest (pos + 1)

def scanAll {α : Type} (m : List Char → Option (α × List Char))
    (l : List Char) (pos : Nat) : List (Nat × Nat × α) :=
  scanAllFuel m l.length l pos

/-- First match at a position ≥ `i` (search semantics of `String.match` and
of `RegExp.test` starting from `lastIndex`). -/
def searchFrom {α : Type} (m : List Char → Option (α × List Char))
    (l : List Char) (i : Nat) : Option (Nat × Nat × α) :=
  (scanAll m (l.drop i) i).head?

/-- Whether `pat` stands at the head of the input. -/
def hasPrefixChars : List Char → List Char → Bool
  | [], _ => true
  | _ :: _, [] => false
  | p :: ps, x :: xs => p = x && hasPrefixChars ps xs

/-- `String.prototype.includes` / `indexOf ≥ 0`. -/
def containsSubstr (pat : List Char) : List Char → Bool
  | [] => hasPrefixChars pat []
  | c :: rest => hasPrefixChars pat (c :: rest) || containsSubstr pat rest

/-- The mutable `lastIndex` state of the two module-level `/g` regexes
DEFINE_RE and DECORATOR_RE, shared by `isLitFile` (both plugins call it)
and by the pre plugin's `transform`. -/
structure RegexCursors where
  defineLast : Nat
  decoratorLast : Nat
deriving DecidableEq

def cursors0 : RegexCursors := { defineLast := 0, decoratorLast := 0 }

/-- `RegExp.prototype.test` on a `/g` regex: search from `lastIndex`; on
success set `lastIndex` past the match, on failure reset it to 0. -/
def gTest {α : Type} (m : List Char → Option (α × List Char)) (l : List Char)
    (lastIndex : Nat) : Bool × Nat :=
  match searchFrom m l lastIndex with
  | some (s, len, _) => (true, s + len)
  | none => (false, 0)

/-- `isLitFile` (src/src/index.ts lines 44-52), with the module-level
regexes' `lastIndex` state made explicit: `DEFINE_RE.test(code)` and
`DECORATOR_RE.test(code)` start at the stored `lastIndex` and mutate it
(`||` short-circuits: the decorator regex is not touched when the define
test succeeds), then three substring checks. -/
def isLitFile (code : List Char) (st : RegexCursors) : Bool × RegexCursors :=
  if (gTest matchDefineAt code st.defineLast).1 then
    (true, { defineLast := (gTest matchDefineAt code st.defineLast).2,
             decoratorLast := st.decoratorLast })
  else if (gTest matchDecoratorAt code st.decoratorLast).1 then
    (true, { defineLast := (gTest matchDefineAt code st.defineLast).2,
             decoratorLast := (gTest matchDecoratorAt code st.decoratorLast).2 })
  else
    (containsSubstr "from 'lit'".toList code
      || containsSubstr "from \"lit\"".toList code
      || containsSubstr "from 'lit/".toList code,
     { defineLast := (gTest matchDefineAt code st.defineLast).2,
       decoratorLast := (gTest matchDecoratorAt code st.decoratorLast).2 })

/-! ## The pre plugin's transform (src/src/index.ts lines 151-335)

The output is modelled structurally: the MagicString operations the
transform performs (span overwrites and insertions, with their positions
and their payloads), the Property Snapshot list embedded into the prepended
bootstrap, and the unit id baked into the appended acceptance hook.  The
optional `deps` bag forwarded in the rewritten calls (the local-import
scan, lines 168-185) carries no observable behavior in the runtime and is
not modelled. -/

/-- What a rewrite writes into the unit. -/
inductive EditPayload where
  | defineCall (tag className moduleId : String)
  | decoratorComment (tag : String)
  | registration (tag className moduleId : String)
deriving DecidableEq

inductive Edit where
  | overwrite (start len : Nat) (p : EditPayload)
  | insertLeft (pos : Nat) (p : EditPayload)
deriving DecidableEq

/-- The DEFINE_RE exec loop (lines 189-202). -/
def defineMatches (code : List Char) : List (Nat × Nat × String × String) :=
  scanAll matchDefineAt code 0

/-- The DECORATOR_RE exec loop (lines 207-220). -/
def decoratorMatches (code : List Char) : List (Nat × Nat × String) :=
  scanAll matchDecoratorAt code 0

/-- `code.indexOf(c, start)`. -/
def indexOfCharFrom (c : Char) : List Char → Nat → Option Nat
  | [], _ => none
  | x :: xs, pos => if x = c then some pos else indexOfCharFrom c xs (pos + 1)

/-- The brace scan of the decorator pass (lines 245-256): walk from a
position with an open-brace count; when the count returns to zero the
answer is the position one past the closing brace; running off the end of
the unit yields none.  The scan is naive: it counts every brace
character. -/
def braceScan : List Char → Nat → Nat → Option Nat
  | [], _, _ => none
  | c :: rest, pos, count =>
    let count2 := if c = '{' then count + 1 else if c = '}' then count - 1 else count
    if count2 = 0 then some (pos + 1) else braceScan rest (pos + 1) count2

/-- The registration statement inserted for one decorator match (lines
223-258): find the first `export class` match after the decorator
(`afterDecorator.match`; its index equals `indexOf` of the matched text,
since an earlier occurrence of that text would itself be an earlier match),
then the first `\x7b` from the class-match start, then brace-scan the class
body; only if the scan closes is the registration inserted after the class
body.  None means no insertion for this decorator. -/
def decoratorInsertion (code : List Char) (moduleId : String)
    (tag : String) (decEnd : Nat) : Option Edit :=
  match searchFrom matchExportClassAt code decEnd with
  | none => none
  | some (clsStart, _, className) =>
    match indexOfCharFrom '{' (code.drop clsStart) clsStart with
    | none => none
    | some bodyStart =>
      match braceScan (code.drop (bodyStart + 1)) (bodyStart + 1) 1 with
      | none => none
      | some pos => some (.insertLeft pos (.registration tag className moduleId))

/-- All MagicString edits of one transform call: each define call is
overwritten by a `window.__litHmrDefine(...)` call (line 196), each
decorator is overwritten by an inert marker comment (line 218), and each
decorator additionally gets a registration inserted after its class when
the class is found and closed (line 255). -/
def defineEditOf (moduleId : String) (m : Nat × Nat × String × String) : Edit :=
  .overwrite m.1 m.2.1 (.defineCall m.2.2.1 m.2.2.2 moduleId)

def decoratorCommentOf (m : Nat × Nat × String) : Edit :=
  .overwrite m.1 m.2.1 (.decoratorComment m.2.2)

def decoratorInsertionOf (code : List Char) (moduleId : String)
    (m : Nat × Nat × String) : Option Edit :=
  decoratorInsertion code moduleId m.2.2 (m.1 + m.2.1)

def transformEdits (code : List Char) (moduleId : String) : List Edit :=
  (defineMatches code).map (defineEditOf moduleId)
  ++ (decoratorMatches code).map decoratorCommentOf
  ++ (decoratorMatches code).filterMap (decoratorInsertionOf code moduleId)

/-- `hasTransforms` (lines 163, 201, 219): set by the two rewrite loops. -/
def hasTransforms (code : List Char) : Bool :=
  !(defineMatches code).isEmpty || !(decoratorMatches code).isEmpty

/-! ### Property snapshots (lines 263-304) -/

/-- One entry of the `propsAndState` array: the `typeof` tag, the field
name, and the best-effort evaluated initializer value. -/
structure Snapshot where
  type : String
  name : String
  value : JSVal
deriving DecidableEq

/-- PROP_RE's decorator prefix. -/
def propertyDec : List Char := "@property(".toList

/-- STATE_RE's decorator prefix. -/
def stateDec : List Char := "@state(".toList

/-- `(?:\{[^}]*\}\s*)?` — an optional brace group (the decorator options
object) followed by `\s*`; when the head is an open brace but no closing
brace follows, neither the group nor the empty alternative can lead to the
`)` that must come next, so the whole match fails. -/
def parseBraceGroup (l : List Char) : Option (List Char) :=
  match l with
  | '{' :: cs =>
    match cs.dropWhile (fun c => c ≠ '}') with
    | '}' :: cs2 => some (dropWs cs2)
    | _ => none
  | _ => some l

/-- `(?:public|private|protected)?` — no word boundary, exactly as the
regex alternation reads. -/
def parseOptKeyword (l : List Char) : List Char :=
  match expectStr "public".toList l with
  | some r => r
  | none =>
    match expectStr "private".toList l with
    | some r => r
    | none =>
      match expectStr "protected".toList l with
      | some r => r
      | none => l

/-- `(?:accessor\s+)?` — the group only matches when whitespace follows the
word, otherwise it is skipped (so a field named `accessorFoo` parses as the
identifier). -/
def parseOptAccessor (l : List Char) : List Char :=
  match expectStr "accessor".toList l with
  | some r =>
    match ws1 r with
    | some r2 => r2
    | none => l
  | none => l

/-- PROP_RE / STATE_RE (lines 266-267):
`@property\(\s*(?:\{[^}]*\}\s*)?\)\s*(?:public|private|protected)?\s*(?:accessor\s+)?([a-zA-Z_$][\w$]*)`
(and the `@state` twin); captures the field name. -/
def matchPropNameAt (decorator : List Char) (l : List Char) :
    Option (String × List Char) := do
  let r0 ← expectStr decorator l
  let r1 ← parseBraceGroup (dropWs r0)
  let r2 ← expectStr ")".toList r1
  let r3 := parseOptAccessor (dropWs (parseOptKeyword (dropWs r2)))
  let (nm, r4) ← parseIdent r3
  pure (nm, r4)

/-- `\s*([^;\n]+)` at the end of the value pattern: greedy whitespace, then
a nonempty capture free of `;` and newline.  When everything after the
whitespace is a terminator, the regex backtracks into the whitespace: the
capture becomes the trailing newline-free whitespace run, if any. -/
def captureValue (l : List Char) : Option (String × List Char) :=
  let w := l.takeWhile isJsWs
  let rest := l.dropWhile isJsWs
  let cap := rest.takeWhile (fun c => c ≠ ';' && c ≠ '\n')
  if !cap.isEmpty then some (String.mk cap, rest.drop cap.length)
  else
    let giveback := (w.reverse.takeWhile (fun c => c ≠ '\n')).reverse
    if giveback.isEmpty then none else some (String.mk giveback, rest)

/-- The per-field value regex built at lines 274/291: the same prefix as
the field pattern, then the field name literally, then `\s*=\s*([^;\n]+)`;
captures the initializer text. -/
def matchPropValueAt (decorator : List Char) (nm : String) (l : List Char) :
    Option (String × List Char) := do
  let r0 ← expectStr decorator l
  let r1 ← parseBraceGroup (dropWs r0)
  let r2 ← expectStr ")".toList r1
  let r3 := parseOptAccessor (dropWs (parseOptKeyword (dropWs r2)))
  let r4 ← expectStr nm.toList r3
  let r5 ← expectStr "=".toList (dropWs r4)
  captureValue r5

/-- Model of the JavaScript `eval` applied to an initializer text (line
278/295 calls the real `eval` inside try/catch).  Literal forms evaluate to
their value; any other expression is modelled as throwing (`none`) — in JS
an arbitrary initializer may throw (e.g. a ReferenceError), which is
exactly what the source catches. -/
def evalJs (txt : String) : Option JSVal :=
  let t := (dropWs txt.toList).reverse.dropWhile isJsWs |>.reverse
  if t = "true".toList then some (.bool true)
  else if t = "false".toList then some (.bool false)
  else if t = "undefined".toList then some .undefined
  else if t = "null".toList then some .jsNull
  else if !t.isEmpty && t.all Char.isDigit then
    some (.num (Int.ofNat (t.foldl (fun acc c => acc * 10 + (c.toNat - 48)) 0)))
  else
    match t with
    | '\'' :: cs =>
      if cs.length ≥ 1 && cs.getLast? = some '\''
          && (cs.dropLast.all (fun c => c ≠ '\'')) then
        some (.str (String.mk cs.dropLast))
      else none
    | '"' :: cs =>
      if cs.length ≥ 1 && cs.getLast? = some '"'
          && (cs.dropLast.all (fun c => c ≠ '"')) then
        some (.str (String.mk cs.dropLast))
      else none
    | _ => none

/-- The snapshot entry pushed for one reactive-field match at `start` (lines
271-283 / 288-300): search the value pattern over `code.slice(start)`; when
it matches, try to evaluate the captured text — evaluation failure leaves
`value` undefined — and always push `(typeof value, name, value)`. -/
def snapshotFor (decorator code : List Char) (start : Nat) (nm : String) : Snapshot :=
  match searchFrom (matchPropValueAt decorator nm) (code.drop start) 0 with
  | none => { type := "undefined", name := nm, value := .undefined }
  | some (_, _, txt) =>
    match evalJs txt with
    | some v => { type := jsTypeof v, name := nm, value := v }
    | none => { type := "undefined", name := nm, value := .undefined }

/-- The entries produced for one decorator flavor, in match order. -/
def propEntries (decorator code : List Char) : List Snapshot :=
  (scanAll (matchPropNameAt decorator) code 0).map
    (fun m => snapshotFor decorator code m.1 m.2.2)

/-- `propsAndState` (lines 265-301): all `@property` entries, then all
`@state` entries. -/
def propsAndState (code : List Char) : List Snapshot :=
  propEntries propertyDec code ++ propEntries stateDec code

/-- The structured result of a successful transform: the MagicString edits,
the snapshot list serialized into the prepended bootstrap
(`HMR_RUNTIME(propsAndState)`, line 308), and the unit id baked into the
appended acceptance hook (line 311). -/
structure TransformResult where
  edits : List Edit
  snapshots : List Snapshot
  moduleId : String
deriving DecidableEq

/-- `id.includes("node_modules")` (line 153/392). -/
def idInNodeModules (moduleId : String) : Bool :=
  containsSubstr "node_modules".toList moduleId.toList

/-- `transform` of the litHmr (pre) plugin, threading the module-level
regex cursors: a `node_modules` id returns before touching the regexes;
otherwise `isLitFile` runs (mutating the cursors), and on success the
transform resets both `lastIndex` fields (lines 159-160) and its exec loops
leave them at 0 again, so the call ends with both cursors at 0.  `none` is
the "no change" signal (id skipped, not a Lit file, or no construct
found). -/
def transform (code : List Char) (moduleId : String) (st : RegexCursors) :
    Option TransformResult × RegexCursors :=
  if idInNodeModules moduleId then (none, st)
  else if (isLitFile code st).1 then
    (if hasTransforms code then
      some { edits := transformEdits code moduleId,
             snapshots := propsAndState code,
             moduleId := moduleId }
     else none,
     cursors0)
  else (none, (isLitFile code st).2)

/-! ## The post plugin's transform (src/src/index.ts lines 339-436) -/

/-- A flat piece of a regex made only of literals, `\s*` and `\s+`. -/
inductive Tok where
  | lit (s : String)
  | wsPlus
  | wsStar

/-- Match a token sequence at the head of the input (maximal-munch
whitespace, which agrees with the regex because no literal in these
patterns starts with whitespace). -/
def matchToks : List Tok → List Char → Option (List Char)
  | [], l => some l
  | .lit s :: ts, l =>
    match expectStr s.toList l with
    | some r => matchToks ts r
    | none => none
  | .wsPlus :: ts, l =>
    match ws1 l with
    | some r => matchToks ts r
    | none => none
  | .wsStar :: ts, l => matchToks ts (dropWs l)

/-- ACCESS_CHECK_RE (line 401):
`var\s+__accessCheck\s*=\s*\(obj,\s*member,\s*msg\)\s*=>\s*member\.has\(obj\)\s*\|\|\s*__typeError\("Cannot\s+"\s*\+\s*msg\);`
(not global: a plain search with no cursor). -/
def matchAccessCheckAt (l : List Char) : Option (Unit × List Char) :=
  (matchToks
    [.lit "var", .wsPlus, .lit "__accessCheck", .wsStar, .lit "=", .wsStar,
     .lit "(obj,", .wsStar, .lit "member,", .wsStar, .lit "msg)", .wsStar,
     .lit "=>", .wsStar, .lit "member.has(obj)", .wsStar, .lit "||", .wsStar,
     .lit "__typeError(\"Cannot", .wsPlus, .lit "\"", .wsStar, .lit "+",
     .wsStar, .lit "msg);"] l).map (fun r => ((), r))

/-- `\s*\)` — the closing of LIT_HMR_DEFINE_RE. -/
def parseCloseTail (l : List Char) : Option (List Char) :=
  match dropWs l with
  | ')' :: cs => some cs
  | _ => none

/-- `(?:,[^)]+)?\s*\)`: the optional fourth-argument group is tried first
(greedy); `[^)]+` then runs to just before the next `)`. -/
def parseOptFourth (l : List Char) : Option (List Char) :=
  (match l with
   | ',' :: cs =>
     if (cs.takeWhile (fun c => c ≠ ')')).length ≥ 1 then
       match cs.dropWhile (fun c => c ≠ ')') with
       | ')' :: cs2 => some cs2
       | _ => none
     else none
   | _ => none)
  <|> parseCloseTail l

/-- `([^,]+)(?:,[^)]+)?\s*\)`: the third argument is `[^,]+`, greedy with
backtracking — try the longest comma-free prefix first, then shorter. -/
def tryThirdFrom : Nat → List Char → Option (List Char)
  | 0, _ => none
  | k + 1, l =>
    match parseOptFourth (l.drop (k + 1)) with
    | some r => some r
    | none => tryThirdFrom k l

def parseLitDefineTail (l : List Char) : Option (List Char) :=
  tryThirdFrom (l.takeWhile (fun c => c ≠ ',')).length l

/-- LIT_HMR_DEFINE_RE (line 413):
`window\.__litHmrDefine\(\s*(['"`])([^'"`]+)\1\s*,\s*([a-zA-Z_$][\w$]*)\s*,\s*([^,]+)(?:,[^)]+)?\s*\)`;
captures the tag name. -/
def matchLitHmrDefineAt (l : List Char) : Option (String × List Char) := do
  let r0 ← expectStr "window.__litHmrDefine(".toList l
  let (tag, r1) ← parseQuoted (dropWs r0)
  let r2 ← expectStr ",".toList (dropWs r1)
  let (_cn, r3) ← parseIdent (dropWs r2)
  let r4 ← expectStr ",".toList (dropWs r3)
  let r5 ← parseLitDefineTail (dropWs r4)
  pure (tag, r5)

/-- The tag names recovered by the post plugin's scan (lines 413-420). -/
def litHmrDefineTags (code : List Char) : List String :=
  (scanAll matchLitHmrDefineAt code 0).map (fun m => m.2.2)

/-- The structured result of the post plugin's transform: whether the
`__accessCheck` guard was overwritten, and the tags for which a
finalize-patch snippet (HMR_POST_RUNTIME) is appended, in order. -/
structure PostResult where
  accessCheckPatched : Bool
  finalizeTags : List String
deriving DecidableEq

/-- `transform` of the litHmrPost plugin (lines 390-434): the same
`node_modules` gate and the same `isLitFile` call — on the SAME module-level
regexes, so the cursors are shared with the pre plugin — then the guard
patch and one appended finalize snippet per recovered tag.  Unlike the pre
plugin it never resets the cursors: whatever `isLitFile` leaves in them is
kept. -/
def transformPost (code : List Char) (moduleId : String) (st : RegexCursors) :
    Option PostResult × RegexCursors :=
  if idInNodeModules moduleId then (none, st)
  else if (isLitFile code st).1 then
    (if (searchFrom matchAccessCheckAt code 0).isSome
        || !(litHmrDefineTags code).isEmpty then
      some { accessCheckPatched := (searchFrom matchAccessCheckAt code 0).isSome,
             finalizeTags := litHmrDefineTags code }
     else none,
     (isLitFile code st).2)
  else (none, (isLitFile code st).2)

/-! ## The injected bootstrap and the finalize step's snapshot read (C9) -/

/-- The process-wide properties the bootstrap touches: whether
`window.__LIT_HMR_REGISTRY__` exists (and its content), the
`window.__propsAndState__` list, and which unit's evaluation installed
`window.__litHmrDefine`. -/
structure WindowEnv where
  registryInit : Bool
  hmr : HmrState
  propsAndState : Option (List Snapshot)
  defineFnUnit : Option String
deriving DecidableEq

/-- Evaluating the bootstrap prepended to a unit (HMR_RUNTIME, lines
61-70): `window.__LIT_HMR_REGISTRY__ ??= new Map()` and
`window.__litHmrDefine ??= function(...)` assign only when absent;
`window.__propsAndState__ = JSON.stringify-ed list` assigns
unconditionally, replacing whatever an earlier unit stored. -/
def evalBootstrap (unitId : String) (snaps : List Snapshot) (w : WindowEnv) : WindowEnv :=
  { registryInit := true,
    hmr := if w.registryInit then w.hmr else HmrState.init,
    propsAndState := some snaps,
    defineFnUnit := match w.defineFnUnit with
      | some u => some u
      | none => some unitId }

/-- The snapshot the finalize step consults for a field (HMR_POST_RUNTIME,
line 358): `window.__propsAndState__.find(p => p.name === key)` — read from
the process-wide list, independent of which unit registered the tag being
finalized. -/
def finalizeLookup (w : WindowEnv) (fieldName : String) : Option Snapshot :=
  (w.propsAndState.getD []).find? (fun p => p.name = fieldName)

/-! ## C7 — rewrite purity: refuted by the shared regex cursors -/

theorem gTest_false {α : Type} (m : List Char → Option (α × List Char))
    (l : List Char) (i : Nat) (h : (gTest m l i).1 = false) :
    (gTest m l i).2 = 0 := by
  unfold gTest at h ⊢
  cases hs : searchFrom m l i with
  | none => rfl
  | some x =>
    obtain ⟨s, len, a⟩ := x
    rw [hs] at h
    simp at h

/-- When `isLitFile` answers false, both its tests failed, and a failed
global-regex test resets its `lastIndex` to 0: the cursors end at 0. -/
theorem isLitFile_false_resets (code : List Char) (st : RegexCursors)
    (h : (isLitFile code st).1 = false) : (isLitFile code st).2 = cursors0 := by
  unfold isLitFile at h ⊢
  by_cases hb1 : (gTest matchDefineAt code st.defineLast).1 = true
  · rw [hb1] at h
    simp at h
  · have hb1f : (gTest matchDefineAt code st.defineLast).1 = false := by simpa using hb1
    rw [hb1f] at h ⊢
    simp only [Bool.false_eq_true, if_false] at h ⊢
    by_cases hb2 : (gTest matchDecoratorAt code st.decoratorLast).1 = true
    · rw [hb2] at h
      simp at h
    · have hb2f : (gTest matchDecoratorAt code st.decoratorLast).1 = false := by
        simpa using hb2
      rw [hb2f] at h ⊢
      simp only [Bool.false_eq_true, if_false] at h ⊢
      rw [gTest_false _ _ _ hb1f, gTest_false _ _ _ hb2f]
      rfl

/-- C7 (amended) — back-to-back determinism of the pre plugin's transform:
one full transform call always leaves both regex cursors at 0 (either its
gate already reset them, or the transform resets them and its exec loops
end at 0), so a second call on the same input, with nothing in between,
returns exactly the same result.  (The pre-filter alone, and the post
plugin, do NOT reset the cursors: see the counterexample.) -/
theorem transform_back_to_back_deterministic (code : List Char) (moduleId : String) :
    (transform code moduleId cursors0).2 = cursors0
    ∧ transform code moduleId (transform code moduleId cursors0).2
        = transform code moduleId cursors0 := by
  have h1 : (transform code moduleId cursors0).2 = cursors0 := by
    unfold transform
    by_cases hnm : idInNodeModules moduleId = true
    · rw [hnm]
      simp
    · have hnmf : idInNodeModules moduleId = false := by simpa using hnm
      rw [hnmf]
      simp only [Bool.false_eq_true, if_false]
      by_cases hlit : (isLitFile code cursors0).1 = true
      · rw [hlit]
        simp
      · have hlitf : (isLitFile code cursors0).1 = false := by simpa using hlit
        rw [hlitf]
        simp only [Bool.false_eq_true, if_false]
        exact isLitFile_false_resets code cursors0 hlitf
  exact ⟨h1, by rw [h1]⟩

/-- The counterexample input: one registration call, no `lit` import. -/
def c7code : List Char := "customElements.define('x-el', X)".toList

/-- C7 counterexample — the rewrite interface is NOT a pure function of
(source text, unit id): on the same input pair, a fresh call transforms,
but the same call made right after the post plugin's transform has run (or
after any bare `isLitFile` call) returns the no-change signal, because
`isLitFile` is stateful: `DEFINE_RE.test` left `lastIndex` past the only
match, so the pre-filter answers true on one call and false on the next. -/
theorem rewrite_impure_counterexample :
    (transform c7code "/src/a.ts" cursors0).1.isSome = true
    ∧ (transform c7code "/src/a.ts"
        (transformPost c7code "/src/a.ts" cursors0).2).1 = none
    ∧ (isLitFile c7code cursors0).1 = true
    ∧ (isLitFile c7code (isLitFile c7code cursors0).2).1 = false := by
  exact ⟨rfl, rfl, rfl, rfl⟩

/-! ## C8 — snapshot capture -/

/-- C8 — Snapshot capture: for a reactive-field match of either flavor
(`@property` or `@state`), when the initializer text evaluates to the
number 42 the captured entry is `(kind "number", name, 42)`; when
evaluation throws, an entry is still captured, with kind "undefined" and an
absent value; in both cases the entry is part of the unit's snapshot list,
and the transform still returns a rewritten result (never a failure)
whenever its gates pass. -/
theorem snapshot_capture (dec code : List Char) (moduleId : String)
    (st : RegexCursors) (s len : Nat) (nm : String) (vs vl : Nat) (txt : String)
    (hdec : dec = propertyDec ∨ dec = stateDec)
    (hmem : (s, len, nm) ∈ scanAll (matchPropNameAt dec) code 0)
    (hval : searchFrom (matchPropValueAt dec nm) (code.drop s) 0
      = some (vs, vl, txt)) :
    (evalJs txt = some (.num 42) →
      snapshotFor dec code s nm
        = { type := "number", name := nm, value := .num 42 })
    ∧ (evalJs txt = none →
      snapshotFor dec code s nm
        = { type := "undefined", name := nm, value := .undefined })
    ∧ snapshotFor dec code s nm ∈ propsAndState code
    ∧ (idInNodeModules moduleId = false →
       (isLitFile code st).1 = true → hasTransforms code = true →
       (transform code moduleId st).1
         = some { edits := transformEdits code moduleId,
                  snapshots := propsAndState code,
                  moduleId := moduleId }) := by
  refine ⟨?_, ?_, ?_, ?_⟩
  · intro heval
    simp only [snapshotFor, hval, heval]
    rfl
  · intro heval
    simp only [snapshotFor, hval, heval]
  · rcases hdec with hdec | hdec
    · subst hdec
      apply List.mem_append_left
      exact List.mem_map.mpr ⟨(s, len, nm), hmem, rfl⟩
    · subst hdec
      apply List.mem_append_right
      exact List.mem_map.mpr ⟨(s, len, nm), hmem, rfl⟩
  · intro hnm hlit hht
    unfold transform
    rw [hnm, hlit, hht]
    simp only [Bool.false_eq_true, if_false, if_true]

/-- The C8 witness unit: a define call (so the transform applies), one
`@property` field initialized to 42, one `@state` field whose initializer
throws. -/
def c8code : List Char :=
  "customElements.define('a-b', C);@property() count = 42;@state() z = boom();".toList

/-- C8 witness: the `count = 42` field of the concrete unit is captured as
a number-42 snapshot, and the snapshot is in the unit's list. -/
theorem snapshot_capture_witness :
    snapshotFor propertyDec c8code 32 "count"
      = { type := "number", name := "count", value := .num 42 }
    ∧ snapshotFor propertyDec c8code 32 "count" ∈ propsAndState c8code := by
  have h := snapshot_capture propertyDec c8code "/src/x.ts" cursors0 32 17 "count"
    0 22 "42" (Or.inl rfl) (by decide) (by decide)
  exact ⟨h.1 (by decide), h.2.2.1⟩

/-! ## C9 — the bootstrap clobbers the process-wide snapshot list -/

/-- C9 — Global snapshot clobbering: evaluating unit A's bootstrap and then
unit B's leaves `window.__propsAndState__` holding B's list (the plain
assignment overwrites A's), while the registry content and the
`__litHmrDefine` function installed by the earlier evaluation are kept
(`??=` assigns only when absent); consequently the finalize step for ANY
tag — including one registered by unit A — reads unit B's snapshot list. -/
theorem bootstrap_clobbers_snapshots (w : WindowEnv) (uA uB : String)
    (A B : List Snapshot) :
    (evalBootstrap uB B (evalBootstrap uA A w)).propsAndState = some B
    ∧ (evalBootstrap uA A w).propsAndState = some A
    ∧ (evalBootstrap uB B (evalBootstrap uA A w)).hmr = (evalBootstrap uA A w).hmr
    ∧ (evalBootstrap uB B (evalBootstrap uA A w)).defineFnUnit
        = (evalBootstrap uA A w).defineFnUnit
    ∧ (w.defineFnUnit = none →
        (evalBootstrap uB B (evalBootstrap uA A w)).defineFnUnit = some uA)
    ∧ ∀ fieldName, finalizeLookup (evalBootstrap uB B (evalBootstrap uA A w)) fieldName
        = B.find? (fun p => p.name = fieldName) := by
  refine ⟨rfl, rfl, by simp [evalBootstrap], ?_, ?_, fun fieldName => rfl⟩
  · cases hw : w.defineFnUnit <;> simp [evalBootstrap, hw]
  · intro h
    simp [evalBootstrap, h]

/-- A fresh window, and two units' snapshot lists, for the C9 witness. -/
def w0 : WindowEnv :=
  { registryInit := false, hmr := HmrState.init, propsAndState := none,
    defineFnUnit := none }

def snapsA : List Snapshot := [{ type := "number", name := "count", value := .num 1 }]

def snapsB : List Snapshot := [{ type := "number", name := "count", value := .num 2 }]

/-- C9 witness: after units A then B evaluate on a fresh window, the
snapshot list is B's and the define function is still A's. -/
theorem bootstrap_clobbers_snapshots_witness :
    (evalBootstrap "/src/b.ts" snapsB (evalBootstrap "/src/a.ts" snapsA w0)).propsAndState
      = some snapsB
    ∧ (evalBootstrap "/src/b.ts" snapsB (evalBootstrap "/src/a.ts" snapsA w0)).defineFnUnit
      = some "/src/a.ts" := by
  have h := bootstrap_clobbers_snapshots w0 "/src/a.ts" "/src/b.ts" snapsA snapsB
  exact ⟨h.1, h.2.2.2.2.1 rfl⟩

/-! ## C10 — decorator stripped; registration only for closed export class -/

/-- Whether an edit writes a `window.__litHmrDefine(tag, ...)` call into
the unit, for the given tag. -/
def emitsCallFor (tag : String) : Edit → Bool
  | .overwrite _ _ (.defineCall t _ _) => t = tag
  | .insertLeft _ (.registration t _ _) => t = tag
  | _ => false

theorem decoratorInsertion_shape {code : List Char} {moduleId tag : String}
    {decEnd : Nat} {e : Edit}
    (h : decoratorInsertion code moduleId tag decEnd = some e) :
    ∃ pos cn, e = .insertLeft pos (.registration tag cn moduleId) := by
  unfold decoratorInsertion at h
  cases h1 : searchFrom matchExportClassAt code decEnd with
  | none => rw [h1] at h; cases h
  | some m =>
    obtain ⟨clsStart, mlen, className⟩ := m
    rw [h1] at h
    simp only at h
    cases h2 : indexOfCharFrom '{' (code.drop clsStart) clsStart with
    | none => rw [h2] at h; cases h
    | some bodyStart =>
      rw [h2] at h
      simp only at h
      cases h3 : braceScan (code.drop (bodyStart + 1)) (bodyStart + 1) 1 with
      | none => rw [h3] at h; cases h
      | some pos =>
        rw [h3] at h
        simp only [Option.some_inj] at h
        exact ⟨pos, className, h.symm⟩

/-- C10 — for every decorator match the transform overwrites the decorator
span with the inert marker comment; a registration is inserted for the
match only through `decoratorInsertion`, which yields nothing when no
`export class` follows the decorator (or the class's brace scan never
closes); and when additionally no define call carries the tag and no other
decorator match for the tag yields an insertion, no edit of the whole
transform writes a registration call for that tag. -/
theorem decorator_strip_no_registration (code : List Char) (moduleId : String)
    (s len : Nat) (tag : String)
    (hmem : (s, len, tag) ∈ decoratorMatches code) :
    Edit.overwrite s len (.decoratorComment tag) ∈ transformEdits code moduleId
    ∧ (searchFrom matchExportClassAt code (s + len) = none →
        decoratorInsertion code moduleId tag (s + len) = none)
    ∧ ((∀ m ∈ defineMatches code, m.2.2.1 ≠ tag) →
       (∀ m ∈ decoratorMatches code, m.2.2 = tag →
          decoratorInsertion code moduleId m.2.2 (m.1 + m.2.1) = none) →
       ∀ e ∈ transformEdits code moduleId, emitsCallFor tag e = false) := by
  refine ⟨?_, ?_, ?_⟩
  · unfold transformEdits
    apply List.mem_append.mpr
    refine Or.inl (List.mem_append.mpr (Or.inr ?_))
    exact List.mem_map.mpr ⟨(s, len, tag), hmem, rfl⟩
  · intro h
    simp only [decoratorInsertion, h]
  · intro h1 h2 e he
    unfold transformEdits at he
    rcases List.mem_append.mp he with hAB | hC
    · rcases List.mem_append.mp hAB with hA | hB
      · obtain ⟨m, hm, rfl⟩ := List.mem_map.mp hA
        obtain ⟨ms, mlen, mtag, mcn⟩ := m
        have hne := h1 (ms, mlen, mtag, mcn) hm
        simp only at hne
        simp [defineEditOf, emitsCallFor, hne]
      · obtain ⟨m, hm, rfl⟩ := List.mem_map.mp hB
        obtain ⟨ms, mlen, mtag⟩ := m
        rfl
    · obtain ⟨m, hm, hsome⟩ := List.mem_filterMap.mp hC
      obtain ⟨ms, mlen, mtag⟩ := m
      simp only [decoratorInsertionOf] at hsome
      by_cases htag : mtag = tag
      · have hins := h2 (ms, mlen, mtag) hm htag
        simp only at hins
        rw [hins] at hsome
        cases hsome
      · obtain ⟨pos, cn, rfl⟩ := decoratorInsertion_shape hsome
        simp [emitsCallFor, htag]

/-- The C10 witness unit: a decorated class that is NOT exported. -/
def c10code : List Char :=
  "@customElement('x-el') class A extends LitElement \x7b \x7d".toList

/-- C10 witness: the decorator of the non-exported class is replaced by the
marker comment, and no registration is inserted for it. -/
theorem decorator_strip_witness :
    Edit.overwrite 0 22 (.decoratorComment "x-el") ∈ transformEdits c10code "/src/a.ts"
    ∧ decoratorInsertion c10code "/src/a.ts" "x-el" (0 + 22) = none := by
  have h := decorator_strip_no_registration c10code "/src/a.ts" 0 22 "x-el" (by decide)
  exact ⟨h.1, h.2.1 (by decide)⟩

end LitHmr
